import Mathlib

/-!
Shallow embedding of `src/scripts/generate_embeddings.py`.

Python strings are modelled as `List Char` (a Python `str` is a sequence of
code points, and slicing `s[:8000]` takes the first 8000 code points, which is
`List.take 8000`).  The embedding vectors returned by the provider are opaque
data as far as the script is concerned, so they are modelled by an abstract
carrier `Emb := List Int`.  External effects (the OpenAI API, the psycopg2
connection attempt, and the possibility that executing the UPDATE raises) are
modelled by oracles collected in a `World`.  The run records a trace of
datastore operations, the printed log lines, and every text actually passed to
the embedding provider.
-/

namespace GenEmb

/-- Python `str` as a sequence of code points. -/
abbrev Str := List Char

/-- Opaque embedding vector returned by the provider. -/
abbrev Emb := List Int

/-- One row of the `notes` table: `id, title, content, embedding, indexed_at`.
`title` and `content` are nullable text columns, `embedding` a nullable vector
column, `indexed_at` a nullable timestamp. -/
structure Row where
  id : Int
  title : Option Str
  content : Option Str
  embedding : Option Emb
  indexed_at : Option Int
deriving DecidableEq

/-- A `(id, title, content)` tuple as returned by the SELECT. -/
abbrev Note := Int × Option Str × Option Str

/-- Datastore operations issued by the script, in order. -/
inductive DbOp where
  | connect : DbOp
  | select : DbOp
  | update : Int → DbOp
  | commit : DbOp
  | rollback : DbOp
  | closeCur : DbOp
  | closeConn : DbOp
deriving DecidableEq

/-- Lines printed by the script. -/
inductive LogEntry where
  | found : Nat → LogEntry
  | processed : Int → Option Str → LogEntry
  | errorLine : Int → Str → LogEntry
  | finished : LogEntry
deriving DecidableEq

/-- External effects the script interacts with: the result of
`psycopg2.connect`, the embedding API (`client.embeddings.create`, applied to
the request text, returning either an error message or a vector), whether
executing the UPDATE (plus its commit) raises for a given note id, and the
database server time `NOW()`. -/
structure World where
  connect : Except Str Unit
  api : Str → Except Str Emb
  updateExec : Int → Except Str Unit
  now : Int

/-- How Python's f-string renders a nullable column: `str(None) = "None"`. -/
def pyStr : Option Str → Str
  | none => "None".toList
  | some s => s

/-- `full_text = f"{title}\n\n{content}"` (line 35 of the script). -/
def full_text (title content : Option Str) : Str :=
  pyStr title ++ ('\n' :: '\n' :: []) ++ pyStr content

/-- `truncated_text = full_text[:8000]` (line 37): the request text handed to
the embedding step. -/
def requestText (title content : Option Str) : Str :=
  (full_text title content).take 8000

/-- `text.replace("\n", " ")` (line 20): the text actually passed to the
provider.  The pattern is a single character, so the replacement is a
character map. -/
def apiRequest (text : Str) : Str :=
  text.map (fun c => if c = '\n' then ' ' else c)

/-- `get_embedding` (lines 19-21): normalise newlines, then call the API. -/
def get_embedding (api : Str → Except Str Emb) (text : Str) : Except Str Emb :=
  api (apiRequest text)

/-- The SELECT of line 28: all rows whose `embedding` IS NULL, projected to
`(id, title, content)`. -/
def selectCandidates (rows : List Row) : List Note :=
  (rows.filter (fun r => r.embedding.isNone)).map (fun r => (r.id, r.title, r.content))

/-- The UPDATE of lines 41-44: set `embedding` and `indexed_at = NOW()` on
every row whose id matches. -/
def sqlUpdate (noteId : Int) (e : Emb) (now : Int) (rows : List Row) : List Row :=
  rows.map (fun r =>
    if r.id = noteId then { r with embedding := some e, indexed_at := some now } else r)

/-- Look a row up by id (the row a `WHERE id = %s` clause addresses). -/
def findRow (i : Int) (rows : List Row) : Option Row :=
  rows.find? (fun r => r.id = i)

/-- Result of one iteration of the `for` loop, or of a run of iterations. -/
structure StepOut where
  rows : List Row
  trace : List DbOp
  log : List LogEntry
  apiCalls : List Str

/-- One iteration of the loop body (lines 33-49): build the request text, call
the API, execute the UPDATE and commit; on any exception print the error line
and roll back.  The committed table state, the datastore operations, the
printed lines and the text sent to the provider are all recorded. -/
def processOne (w : World) (rows : List Row) (n : Note) : StepOut :=
  match get_embedding w.api (requestText n.2.1 n.2.2) with
  | .error e =>
      ⟨rows, [DbOp.rollback], [LogEntry.errorLine n.1 e],
        [apiRequest (requestText n.2.1 n.2.2)]⟩
  | .ok emb =>
    match w.updateExec n.1 with
    | .error e =>
        ⟨rows, [DbOp.update n.1, DbOp.rollback], [LogEntry.errorLine n.1 e],
          [apiRequest (requestText n.2.1 n.2.2)]⟩
    | .ok _ =>
        ⟨sqlUpdate n.1 emb w.now rows, [DbOp.update n.1, DbOp.commit],
          [LogEntry.processed n.1 n.2.1], [apiRequest (requestText n.2.1 n.2.2)]⟩

/-- The `for` loop over the fetched notes. -/
def processList (w : World) (rows : List Row) : List Note → StepOut
  | [] => ⟨rows, [], [], []⟩
  | n :: rest =>
    let s := processOne w rows n
    let s' := processList w s.rows rest
    ⟨s'.rows, s.trace ++ s'.trace, s.log ++ s'.log, s.apiCalls ++ s'.apiCalls⟩

/-- The error, if any, that the try-block raises for a note: either the API
call fails or executing the UPDATE fails. -/
def stepError (w : World) (n : Note) : Option Str :=
  match get_embedding w.api (requestText n.2.1 n.2.2) with
  | .error e => some e
  | .ok _ =>
    match w.updateExec n.1 with
    | .error e => some e
    | .ok _ => none

/-- Result of a whole `process_notes()` call.  `outcome = .error e` means the
exception `e` escaped `process_notes` uncaught. -/
structure RunOut where
  outcome : Except Str Unit
  rows : List Row
  trace : List DbOp
  log : List LogEntry
  apiCalls : List Str

/-- `process_notes` (lines 23-56): connect (an exception here escapes), fetch
the candidate snapshot once, loop, close cursor and connection. -/
def process_notes (w : World) (rows : List Row) : RunOut :=
  match w.connect with
  | .error e => ⟨Except.error e, rows, [DbOp.connect], [], []⟩
  | .ok _ =>
    let notes := selectCandidates rows
    let s := processList w rows notes
    ⟨Except.ok (), s.rows,
      DbOp.connect :: DbOp.select :: (s.trace ++ [DbOp.closeCur, DbOp.closeConn]),
      LogEntry.found notes.length :: (s.log ++ [LogEntry.finished]),
      s.apiCalls⟩

/-- An environment / `.env.local` file: an association list of bindings. -/
abbrev EnvList := List (String × Str)

/-- `os.environ.get`. -/
def lookupEnv (k : String) (e : EnvList) : Option Str :=
  (e.find? (fun kv => kv.1 = k)).map (fun kv => kv.2)

/-- `os.environ.setdefault`: bind `k` only if it is not already bound. -/
def setdefault (k : String) (v : Str) (e : EnvList) : EnvList :=
  if (lookupEnv k e).isSome then e else e ++ [(k, v)]

/-- `load_dotenv(".env.local")` (line 7): walk the file's bindings and apply
each one non-destructively to the process environment. -/
def load_dotenv (file env : EnvList) : EnvList :=
  file.foldl (fun e kv => setdefault kv.1 kv.2 e) env

/-- Python truthiness of `os.environ.get(...)`: `None` and the empty string
are falsy (`if not OPENAI_API_KEY`, line 15). -/
def pyFalsy : Option Str → Bool
  | none => true
  | some s => s.isEmpty

/-- Process exit status. -/
inductive ExitStatus where
  | success : ExitStatus
  | failure : ExitStatus
deriving DecidableEq

/-- Result of running the whole script as a process. -/
structure ScriptOut where
  exit : ExitStatus
  raised : Option Str
  rows : List Row
  trace : List DbOp
  log : List LogEntry
  apiCalls : List Str

/-- The whole script run as a process: load `.env.local` non-destructively,
read `OPENAI_API_KEY`, raise `ValueError` (failure exit, zero datastore or API
calls) if it is falsy, otherwise run `process_notes`; an exception escaping
`process_notes` (a failed connect) becomes a failure exit status. -/
def runScript (procEnv fileEnv : EnvList) (w : World) (rows : List Row) : ScriptOut :=
  let env := load_dotenv fileEnv procEnv
  let key := lookupEnv "OPENAI_API_KEY" env
  if pyFalsy key then
    ⟨ExitStatus.failure, some "OPENAI_API_KEY environment variable is required".toList,
      rows, [], [], []⟩
  else
    let r := process_notes w rows
    match r.outcome with
    | .error e => ⟨ExitStatus.failure, some e, r.rows, r.trace, r.log, r.apiCalls⟩
    | .ok _ => ⟨ExitStatus.success, none, r.rows, r.trace, r.log, r.apiCalls⟩

/-- A row evolves during a run only by receiving an embedding and the
timestamp together, in one step. -/
def evolves (now : Int) (r r' : Row) : Prop :=
  r' = r ∨ ∃ e : Emb, r' = { r with embedding := some e, indexed_at := some now }

/-- The committed table state after each iteration of the loop (a rolled-back
iteration leaves the previous committed state in place). -/
def committedStates (w : World) (rows : List Row) : List Note → List (List Row)
  | [] => []
  | n :: rest =>
    (processOne w rows n).rows :: committedStates w (processOne w rows n).rows rest

/-- A provider that always answers with a fixed vector. -/
def sampleApi : Str → Except Str Emb := fun _ => Except.ok [1, 2, 3]

/-- A world in which everything succeeds. -/
def okWorld : World := ⟨Except.ok (), sampleApi, fun _ => Except.ok (), 100⟩

/-- A world whose datastore connection attempt raises. -/
def badConnWorld : World :=
  ⟨Except.error "connection refused".toList, sampleApi, fun _ => Except.ok (), 100⟩

/-- A world in which executing the UPDATE raises for note id 1 only. -/
def failWorld : World :=
  ⟨Except.ok (), sampleApi,
    fun i => if i = 1 then Except.error "boom".toList else Except.ok (), 100⟩

/-- An unembedded sample row. -/
def rowA : Row := ⟨1, some "A".toList, some "B".toList, none, none⟩

/-- An already-embedded sample row. -/
def rowB : Row := ⟨2, some "C".toList, some "D".toList, some [9], some 7⟩

/-- Two sample rows: one unembedded candidate, one already embedded. -/
def sampleRows : List Row := [rowA, rowB]

/-- Three unembedded sample rows. -/
def rows3 : List Row :=
  [⟨1, some "A".toList, some "B".toList, none, none⟩,
   ⟨2, some "C".toList, some "D".toList, none, none⟩,
   ⟨3, some "E".toList, some "F".toList, none, none⟩]

/-- The candidate tuples of `rows3`, in selection order. -/
def note1 : Note := (1, some "A".toList, some "B".toList)

/-- Second candidate tuple of `rows3`. -/
def note2 : Note := (2, some "C".toList, some "D".toList)

/-- Third candidate tuple of `rows3`. -/
def note3 : Note := (3, some "E".toList, some "F".toList)

/-- A process environment that carries the API credential. -/
def keyEnv : EnvList := [("OPENAI_API_KEY", "sk-test".toList)]

/-- An 8000-character title used to exercise the truncation boundary. -/
def bigTitle : Str := List.replicate 8000 'a'

/-! ### Helper lemmas -/

/-- The request text never exceeds the 8000-character budget. -/
lemma requestText_length_le (title content : Option Str) :
    (requestText title content).length ≤ 8000 := by
  unfold requestText
  rw [List.length_take]
  exact Nat.min_le_left ..

/-- Newline normalisation preserves length. -/
lemma apiRequest_length (text : Str) : (apiRequest text).length = text.length := by
  unfold apiRequest
  exact List.length_map ..

/-- Newline normalisation removes every newline. -/
lemma apiRequest_no_newline (text : Str) : '\n' ∉ apiRequest text := by
  unfold apiRequest
  intro h
  obtain ⟨c, _, hc⟩ := List.mem_map.mp h
  by_cases h' : c = '\n' <;> simp [h'] at hc

/-- Each loop iteration sends exactly one request to the provider: the
newline-normalised truncated text. -/
lemma processOne_apiCalls (w : World) (rows : List Row) (n : Note) :
    (processOne w rows n).apiCalls = [apiRequest (requestText n.2.1 n.2.2)] := by
  unfold processOne
  cases get_embedding w.api (requestText n.2.1 n.2.2) with
  | error e => rfl
  | ok emb => cases w.updateExec n.1 <;> rfl

/-- The provider requests of a run, in order. -/
lemma processList_apiCalls (w : World) (notes : List Note) (rows : List Row) :
    (processList w rows notes).apiCalls
      = notes.map (fun n => apiRequest (requestText n.2.1 n.2.2)) := by
  induction notes generalizing rows with
  | nil => rfl
  | cons n rest ih =>
    show (processOne w rows n).apiCalls ++ _ = _
    rw [processOne_apiCalls, ih]
    rfl

/-- A failing iteration: committed state unchanged, one error line printed,
the transaction rolled back. -/
lemma processOne_fail (w : World) (rows : List Row) (n : Note) (e : Str)
    (h : stepError w n = some e) :
    (processOne w rows n).rows = rows ∧
    (processOne w rows n).log = [LogEntry.errorLine n.1 e] ∧
    DbOp.rollback ∈ (processOne w rows n).trace := by
  unfold stepError at h
  unfold processOne
  cases hapi : get_embedding w.api (requestText n.2.1 n.2.2) with
  | error e' =>
    rw [hapi] at h
    obtain rfl : e' = e := by simpa using h
    simp [hapi]
  | ok emb =>
    rw [hapi] at h
    cases hupd : w.updateExec n.1 with
    | error e' =>
      rw [hupd] at h
      obtain rfl : e' = e := by simpa using h
      simp [hapi, hupd]
    | ok u =>
      rw [hupd] at h
      simp at h

/-- A successful iteration: one UPDATE addressed at the note's id, one commit,
one progress line. -/
lemma processOne_ok (w : World) (rows : List Row) (n : Note)
    (h : stepError w n = none) :
    ∃ emb : Emb,
      get_embedding w.api (requestText n.2.1 n.2.2) = Except.ok emb ∧
      processOne w rows n =
        ⟨sqlUpdate n.1 emb w.now rows, [DbOp.update n.1, DbOp.commit],
          [LogEntry.processed n.1 n.2.1], [apiRequest (requestText n.2.1 n.2.2)]⟩ := by
  unfold stepError at h
  unfold processOne
  cases hapi : get_embedding w.api (requestText n.2.1 n.2.2) with
  | error e' => rw [hapi] at h; simp at h
  | ok emb =>
    rw [hapi] at h
    cases hupd : w.updateExec n.1 with
    | error e' => rw [hupd] at h; simp at h
    | ok u => exact ⟨emb, rfl, by simp [hapi, hupd]⟩

/-- Committed rows after a run over a split list: run the halves in order. -/
lemma processList_rows_append (w : World) (l₁ l₂ : List Note) (rows : List Row) :
    (processList w rows (l₁ ++ l₂)).rows
      = (processList w (processList w rows l₁).rows l₂).rows := by
  induction l₁ generalizing rows with
  | nil => rfl
  | cons n rest ih => exact ih (processOne w rows n).rows

/-- Printed lines of a run over a split list. -/
lemma processList_log_append (w : World) (l₁ l₂ : List Note) (rows : List Row) :
    (processList w rows (l₁ ++ l₂)).log
      = (processList w rows l₁).log
        ++ (processList w (processList w rows l₁).rows l₂).log := by
  induction l₁ generalizing rows with
  | nil => rfl
  | cons n rest ih =>
    simp only [List.cons_append, processList, List.append_eq]
    rw [ih, List.append_assoc]

/-- Datastore trace of a run over a split list. -/
lemma processList_trace_append (w : World) (l₁ l₂ : List Note) (rows : List Row) :
    (processList w rows (l₁ ++ l₂)).trace
      = (processList w rows l₁).trace
        ++ (processList w (processList w rows l₁).rows l₂).trace := by
  induction l₁ generalizing rows with
  | nil => rfl
  | cons n rest ih =>
    simp only [List.cons_append, processList, List.append_eq]
    rw [ih, List.append_assoc]

/-- The UPDATE leaves every row with a different id untouched when looked up
by id. -/
lemma findRow_sqlUpdate_ne (i noteId : Int) (h : i ≠ noteId) (e : Emb) (now : Int)
    (rows : List Row) :
    findRow i (sqlUpdate noteId e now rows) = findRow i rows := by
  unfold findRow sqlUpdate
  rw [List.find?_map]
  have hcomp : ((fun r : Row => decide (r.id = i)) ∘
      (fun r : Row => if r.id = noteId then
        { r with embedding := some e, indexed_at := some now } else r))
      = fun r : Row => decide (r.id = i) := by
    funext r
    by_cases hr : r.id = noteId <;> simp [hr]
  rw [hcomp]
  cases hf : rows.find? (fun r : Row => decide (r.id = i)) with
  | none => rfl
  | some r =>
    have hri : r.id = i := by simpa using List.find?_some hf
    simp [hri, h]

/-- The UPDATE sets `embedding` and `indexed_at` of the addressed row, in one
step, and changes nothing else about it. -/
lemma findRow_sqlUpdate_eq (noteId : Int) (e : Emb) (now : Int) (rows : List Row) :
    findRow noteId (sqlUpdate noteId e now rows)
      = (findRow noteId rows).map
          (fun r => { r with embedding := some e, indexed_at := some now }) := by
  unfold findRow sqlUpdate
  rw [List.find?_map]
  have hcomp : ((fun r : Row => decide (r.id = noteId)) ∘
      (fun r : Row => if r.id = noteId then
        { r with embedding := some e, indexed_at := some now } else r))
      = fun r : Row => decide (r.id = noteId) := by
    funext r
    by_cases hr : r.id = noteId <;> simp [hr]
  rw [hcomp]
  cases hf : rows.find? (fun r : Row => decide (r.id = noteId)) with
  | none => rfl
  | some r =>
    have hri : r.id = noteId := by simpa using List.find?_some hf
    simp [hri]

/-- An iteration for a note with a different id leaves a row, looked up by id,
untouched. -/
lemma findRow_processOne_ne (w : World) (rows : List Row) (n : Note) (i : Int)
    (h : n.1 ≠ i) :
    findRow i (processOne w rows n).rows = findRow i rows := by
  unfold processOne
  cases get_embedding w.api (requestText n.2.1 n.2.2) with
  | error e => rfl
  | ok emb =>
    cases w.updateExec n.1 with
    | error e => rfl
    | ok u => exact findRow_sqlUpdate_ne i n.1 (Ne.symm h) emb w.now rows

/-- A run over notes none of which carries id `i` leaves the row with id `i`
untouched. -/
lemma findRow_processList_untouched (w : World) (notes : List Note)
    (rows : List Row) (i : Int) (h : ∀ n ∈ notes, n.1 ≠ i) :
    findRow i (processList w rows notes).rows = findRow i rows := by
  induction notes generalizing rows with
  | nil => rfl
  | cons n rest ih =>
    show findRow i (processList w (processOne w rows n).rows rest).rows = _
    rw [ih (processOne w rows n).rows (fun m hm => h m (List.mem_cons_of_mem n hm))]
    exact findRow_processOne_ne w rows n i (h n (List.mem_cons_self n rest))

/-- Membership in the SELECT result. -/
lemma mem_selectCandidates (rows : List Row) (n : Note) :
    n ∈ selectCandidates rows
      ↔ ∃ r ∈ rows, r.embedding = none ∧ n = (r.id, r.title, r.content) := by
  unfold selectCandidates
  constructor
  · intro h
    obtain ⟨r, hrf, hrn⟩ := List.mem_map.mp h
    obtain ⟨hr, hre⟩ := List.mem_filter.mp hrf
    exact ⟨r, hr, Option.isNone_iff_eq_none.mp hre, hrn.symm⟩
  · rintro ⟨r, hr, hre, rfl⟩
    exact List.mem_map.mpr
      ⟨r, List.mem_filter.mpr ⟨hr, Option.isNone_iff_eq_none.mpr hre⟩, rfl⟩

/-- With pairwise-distinct row ids, the candidate ids are pairwise distinct. -/
lemma selectCandidates_ids_nodup (rows : List Row)
    (h : (rows.map Row.id).Nodup) :
    ((selectCandidates rows).map (fun n : Note => n.1)).Nodup := by
  unfold selectCandidates
  rw [List.map_map]
  have hc : ((fun n : Note => n.1) ∘ (fun r : Row => (r.id, r.title, r.content)))
      = Row.id := rfl
  rw [hc]
  exact h.sublist ((List.filter_sublist rows).map Row.id)

/-- With pairwise-distinct row ids, looking a member row up by its id finds
exactly that row. -/
lemma findRow_eq_some_of_nodup (rows : List Row)
    (h : (rows.map Row.id).Nodup) (r : Row) (hr : r ∈ rows) :
    findRow r.id rows = some r := by
  unfold findRow
  cases hf : rows.find? (fun x : Row => decide (x.id = r.id)) with
  | none =>
    rw [List.find?_eq_none] at hf
    exact absurd (by simp) (hf r hr)
  | some x =>
    have hx : x ∈ rows := List.mem_of_find?_eq_some hf
    have hxr : x.id = r.id := by simpa using List.find?_some hf
    rw [List.inj_on_of_nodup_map h hx hr hxr]

/-- In a list whose image under `f` is duplicate-free, the element at a split
point has an `f`-value different from every other element's. -/
lemma nodup_split (f : Note → Int) (l₁ l₂ : List Note) (x : Note)
    (h : ((l₁ ++ x :: l₂).map f).Nodup) :
    (∀ y ∈ l₁, f y ≠ f x) ∧ (∀ y ∈ l₂, f y ≠ f x) := by
  rw [List.map_append, List.map_cons, List.nodup_append] at h
  obtain ⟨h₁, h₂, hd⟩ := h
  rw [List.nodup_cons] at h₂
  refine ⟨fun y hy hf => ?_, fun y hy hf => ?_⟩
  · exact hd (List.mem_map_of_mem f hy) (by simp [hf])
  · exact h₂.1 (hf ▸ List.mem_map_of_mem f hy)

/-- `evolves` composes: two single-shot updates amount to one. -/
lemma evolves_trans (now : Int) (r r' r'' : Row)
    (h₁ : evolves now r r') (h₂ : evolves now r' r'') : evolves now r r'' := by
  cases h₁ with
  | inl h => exact h ▸ h₂
  | inr h =>
    obtain ⟨e, rfl⟩ := h
    cases h₂ with
    | inl h => exact h ▸ Or.inr ⟨e, rfl⟩
    | inr h =>
      obtain ⟨e', rfl⟩ := h
      exact Or.inr ⟨e', rfl⟩

/-- The UPDATE evolves every row. -/
lemma sqlUpdate_evolves (noteId : Int) (e : Emb) (now : Int) (rows : List Row) :
    List.Forall₂ (evolves now) rows (sqlUpdate noteId e now rows) := by
  induction rows with
  | nil => exact List.Forall₂.nil
  | cons r rest ih =>
    refine List.Forall₂.cons ?_ ih
    by_cases hr : r.id = noteId
    · exact Or.inr ⟨e, by simp [hr]⟩
    · exact Or.inl (by simp [hr])

/-- `evolves` is reflexive along a whole list. -/
lemma forall₂_evolves_self (now : Int) (l : List Row) :
    List.Forall₂ (evolves now) l l := by
  induction l with
  | nil => exact List.Forall₂.nil
  | cons r rest ih => exact List.Forall₂.cons (Or.inl rfl) ih

/-- Each loop iteration evolves every row. -/
lemma processOne_evolves (w : World) (rows : List Row) (n : Note) :
    List.Forall₂ (evolves w.now) rows (processOne w rows n).rows := by
  unfold processOne
  cases get_embedding w.api (requestText n.2.1 n.2.2) with
  | error e => exact forall₂_evolves_self w.now rows
  | ok emb =>
    cases w.updateExec n.1 with
    | error e => exact forall₂_evolves_self w.now rows
    | ok u => exact sqlUpdate_evolves n.1 emb w.now rows

/-- `Forall₂ evolves` composes along a chain of states. -/
lemma forall₂_evolves_trans (now : Int) (l₁ l₂ l₃ : List Row)
    (h₁ : List.Forall₂ (evolves now) l₁ l₂) (h₂ : List.Forall₂ (evolves now) l₂ l₃) :
    List.Forall₂ (evolves now) l₁ l₃ := by
  induction h₁ generalizing l₃ with
  | nil => cases h₂; exact List.Forall₂.nil
  | cons hab h ih =>
    cases h₂ with
    | cons hbc h' => exact List.Forall₂.cons (evolves_trans _ _ _ _ hab hbc) (ih _ h')

/-- Every committed state of a run evolves from the initial state: rows change
only by getting `embedding` and `indexed_at` set together. -/
lemma committedStates_evolves (w : World) (notes : List Note) (rows : List Row) :
    ∀ s ∈ committedStates w rows notes, List.Forall₂ (evolves w.now) rows s := by
  induction notes generalizing rows with
  | nil => intro s hs; cases hs
  | cons n rest ih =>
    intro s hs
    cases hs with
    | head => exact processOne_evolves w rows n
    | tail _ hs =>
      exact forall₂_evolves_trans w.now rows (processOne w rows n).rows s
        (processOne_evolves w rows n) (ih (processOne w rows n).rows s hs)

/-- The final committed state of a run is one of its committed states. -/
lemma processList_rows_mem_committedStates (w : World) (notes : List Note)
    (rows : List Row) :
    (processList w rows notes).rows ∈ rows :: committedStates w rows notes := by
  induction notes generalizing rows with
  | nil => exact List.mem_cons_self ..
  | cons n rest ih =>
    have h := ih (processOne w rows n).rows
    have hx : (processList w rows (n :: rest)).rows
        = (processList w (processOne w rows n).rows rest).rows := rfl
    rw [hx]
    show _ ∈ rows ::
      ((processOne w rows n).rows :: committedStates w (processOne w rows n).rows rest)
    cases List.mem_cons.mp h with
    | inl h' => rw [h']; exact List.mem_cons_of_mem _ (List.mem_cons_self ..)
    | inr h' => exact List.mem_cons_of_mem _ (List.mem_cons_of_mem _ h')

/-- A binding that is present survives appending more bindings. -/
lemma lookupEnv_append_of_some (e₁ e₂ : EnvList) (k : String) (v : Str)
    (h : lookupEnv k e₁ = some v) : lookupEnv k (e₁ ++ e₂) = some v := by
  unfold lookupEnv at h ⊢
  rw [List.find?_append]
  cases hf : e₁.find? (fun kv => kv.1 = k) with
  | none => rw [hf] at h; simp at h
  | some kv => rw [hf] at h; simpa using h

/-- `setdefault` never changes the value of a key that is already bound. -/
lemma lookupEnv_setdefault (k k' : String) (v' : Str) (e : EnvList) (v : Str)
    (h : lookupEnv k e = some v) :
    lookupEnv k (setdefault k' v' e) = some v := by
  unfold setdefault
  split
  · exact h
  · exact lookupEnv_append_of_some e [(k', v')] k v h

/-- Unfolding the loop: committed rows after a non-empty run. -/
lemma processList_rows_cons (w : World) (rows : List Row) (n : Note)
    (rest : List Note) :
    (processList w rows (n :: rest)).rows
      = (processList w (processOne w rows n).rows rest).rows := rfl

/-- Unfolding the loop: printed lines of a non-empty run. -/
lemma processList_log_cons (w : World) (rows : List Row) (n : Note)
    (rest : List Note) :
    (processList w rows (n :: rest)).log
      = (processOne w rows n).log
        ++ (processList w (processOne w rows n).rows rest).log := rfl

/-- Unfolding the loop: datastore trace of a non-empty run. -/
lemma processList_trace_cons (w : World) (rows : List Row) (n : Note)
    (rest : List Note) :
    (processList w rows (n :: rest)).trace
      = (processOne w rows n).trace
        ++ (processList w (processOne w rows n).rows rest).trace := rfl

/-- Every text a run passes to the provider is the newline-normalised
truncated request text of some note. -/
lemma mem_process_notes_apiCalls (w : World) (rows : List Row) (t : Str)
    (ht : t ∈ (process_notes w rows).apiCalls) :
    ∃ n : Note, t = apiRequest (requestText n.2.1 n.2.2) := by
  unfold process_notes at ht
  cases hconn : w.connect with
  | error e => rw [hconn] at ht; simp at ht
  | ok u =>
    rw [hconn] at ht
    simp only [processList_apiCalls] at ht
    obtain ⟨n, _, hn⟩ := List.mem_map.mp ht
    exact ⟨n, hn.symm⟩

/-! ### Claim theorems -/

/-- Claim C1: for every candidate record, the text submitted to the embedding
step is `title + blank line + content` truncated to the first 8000
characters: its length equals `min(len(title)+2+len(content), 8000)`, and no
text submitted to the provider in any run exceeds 8000 characters. -/
theorem C1_truncation_law :
    (∀ title content : Str,
      (requestText (some title) (some content)).length
        = min (title.length + 2 + content.length) 8000) ∧
    (∀ (w : World) (rows : List Row) (t : Str),
      t ∈ (process_notes w rows).apiCalls → t.length ≤ 8000) := by
  constructor
  · intro title content
    simp only [requestText, full_text, pyStr]
    rw [List.length_take, List.length_append, List.length_append]
    simp only [List.length_cons, List.length_nil]
    omega
  · intro w rows t ht
    obtain ⟨n, rfl⟩ := mem_process_notes_apiCalls w rows t ht
    rw [apiRequest_length]
    exact requestText_length_le n.2.1 n.2.2

/-- Witness for C1 at concrete inputs. -/
theorem C1_truncation_law_witness :
    (requestText (some "Hi".toList) (some "Yo!".toList)).length
      = min ("Hi".toList.length + 2 + "Yo!".toList.length) 8000 ∧
    apiRequest (requestText (some "A".toList) (some "B".toList))
      ∈ (process_notes okWorld sampleRows).apiCalls ∧
    (apiRequest (requestText (some "A".toList) (some "B".toList))).length ≤ 8000 :=
  ⟨C1_truncation_law.1 "Hi".toList "Yo!".toList, by decide,
    C1_truncation_law.2 okWorld sampleRows _ (by decide)⟩

/-- Claim C5: the text passed to the provider is the input with newlines
normalised to single spaces, and therefore contains no newline character;
every text a run actually passes to the provider is newline-free. -/
theorem C5_newline_normalization :
    (∀ (api : Str → Except Str Emb) (text : Str),
      get_embedding api text = api (apiRequest text)) ∧
    (∀ text : Str, '\n' ∉ apiRequest text) ∧
    (∀ (w : World) (rows : List Row) (t : Str),
      t ∈ (process_notes w rows).apiCalls → '\n' ∉ t) := by
  refine ⟨fun api text => rfl, apiRequest_no_newline, fun w rows t ht => ?_⟩
  obtain ⟨n, rfl⟩ := mem_process_notes_apiCalls w rows t ht
  exact apiRequest_no_newline _

/-- Witness for C5 at a concrete run. -/
theorem C5_newline_normalization_witness :
    apiRequest (requestText (some "A".toList) (some "B".toList))
      ∈ (process_notes okWorld sampleRows).apiCalls ∧
    '\n' ∉ apiRequest (requestText (some "A".toList) (some "B".toList)) :=
  ⟨by decide, C5_newline_normalization.2.2 okWorld sampleRows _ (by decide)⟩

/-- Claim C8: the environment-definition file is loaded non-destructively: a
variable already bound in the process environment keeps its process value. -/
theorem C8_env_precedence (file env : EnvList) (k : String) (v : Str)
    (h : lookupEnv k env = some v) :
    lookupEnv k (load_dotenv file env) = some v := by
  unfold load_dotenv
  induction file generalizing env with
  | nil => exact h
  | cons kv rest ih =>
    exact ih (setdefault kv.1 kv.2 env) (lookupEnv_setdefault k kv.1 kv.2 env v h)

/-- Witness for C8: a variable set in both the environment and the file keeps
its environment value. -/
theorem C8_env_precedence_witness :
    lookupEnv "X" [("X", "1".toList)] = some "1".toList ∧
    lookupEnv "X" (load_dotenv [("X", "2".toList)] [("X", "1".toList)])
      = some "1".toList :=
  ⟨by decide,
    C8_env_precedence [("X", "2".toList)] [("X", "1".toList)] "X" "1".toList (by decide)⟩

/-- Claim C6: with the API credential absent from the (dotenv-augmented)
environment, the script raises the descriptive `ValueError` and exits with a
failure status before any datastore or provider interaction: the datastore
trace and the provider call list are empty, the table and the log untouched. -/
theorem C6_missing_key (procEnv fileEnv : EnvList) (w : World) (rows : List Row)
    (h : lookupEnv "OPENAI_API_KEY" (load_dotenv fileEnv procEnv) = none) :
    (runScript procEnv fileEnv w rows).exit = ExitStatus.failure ∧
    (runScript procEnv fileEnv w rows).raised
      = some "OPENAI_API_KEY environment variable is required".toList ∧
    (runScript procEnv fileEnv w rows).trace = [] ∧
    (runScript procEnv fileEnv w rows).apiCalls = [] ∧
    (runScript procEnv fileEnv w rows).log = [] ∧
    (runScript procEnv fileEnv w rows).rows = rows := by
  simp [runScript, h, pyFalsy]

/-- Witness for C6 at a concrete empty environment. -/
theorem C6_missing_key_witness :
    lookupEnv "OPENAI_API_KEY" (load_dotenv [] []) = none ∧
    (runScript [] [] okWorld sampleRows).trace = [] ∧
    (runScript [] [] okWorld sampleRows).exit = ExitStatus.failure :=
  ⟨by decide, (C6_missing_key [] [] okWorld sampleRows (by decide)).2.2.1,
    (C6_missing_key [] [] okWorld sampleRows (by decide)).1⟩

/-- Counterexample to claim C7 as stated: with the credential present and no
per-record failure anywhere, a failed datastore connection still makes the
process exit with a failure status, so "otherwise it runs to normal
completion" is false. -/
theorem C7_counterexample :
    pyFalsy (lookupEnv "OPENAI_API_KEY" (load_dotenv [] keyEnv)) = false ∧
    (∀ i : Int, badConnWorld.updateExec i = Except.ok ()) ∧
    (∀ t : Str, badConnWorld.api t = Except.ok [1, 2, 3]) ∧
    (runScript keyEnv [] badConnWorld sampleRows).exit = ExitStatus.failure := by
  refine ⟨by decide, fun i => rfl, fun t => rfl, ?_⟩
  rfl

/-- Claim C7 amended: the process exits with a failure status if the API
credential is missing or the datastore connection cannot be opened; otherwise
it runs to normal completion regardless of individual record failures, which
are caught and logged and never propagated to the process exit code. -/
theorem C7_exit_amended (procEnv fileEnv : EnvList) (w : World) (rows : List Row) :
    (pyFalsy (lookupEnv "OPENAI_API_KEY" (load_dotenv fileEnv procEnv)) = true →
      (runScript procEnv fileEnv w rows).exit = ExitStatus.failure) ∧
    (pyFalsy (lookupEnv "OPENAI_API_KEY" (load_dotenv fileEnv procEnv)) = false →
      w.connect = Except.ok () →
      (runScript procEnv fileEnv w rows).exit = ExitStatus.success) := by
  constructor
  · intro h
    simp [runScript, h]
  · intro h hconn
    simp [runScript, h, process_notes, hconn]

/-- Witness for the amended C7: success exit in a world where every record
fails, and failure exit with the credential missing. -/
theorem C7_exit_amended_witness :
    pyFalsy (lookupEnv "OPENAI_API_KEY" (load_dotenv [] keyEnv)) = false ∧
    (runScript keyEnv [] failWorld rows3).exit = ExitStatus.success ∧
    pyFalsy (lookupEnv "OPENAI_API_KEY" (load_dotenv [] [])) = true ∧
    (runScript [] [] failWorld rows3).exit = ExitStatus.failure :=
  ⟨by decide, (C7_exit_amended keyEnv [] failWorld rows3).2 (by decide) rfl,
    by decide, (C7_exit_amended [] [] failWorld rows3).1 (by decide)⟩

/-- Claim C10: a failed datastore connection escapes `process_notes` uncaught:
no record is selected or processed, no per-record handling runs, the
connection is never closed, and the process exits with a failure status. -/
theorem C10_connect_failure (procEnv fileEnv : EnvList) (w : World)
    (rows : List Row) (e : Str)
    (hkey : pyFalsy (lookupEnv "OPENAI_API_KEY" (load_dotenv fileEnv procEnv)) = false)
    (hconn : w.connect = Except.error e) :
    (runScript procEnv fileEnv w rows).exit = ExitStatus.failure ∧
    (runScript procEnv fileEnv w rows).raised = some e ∧
    (runScript procEnv fileEnv w rows).rows = rows ∧
    (runScript procEnv fileEnv w rows).log = [] ∧
    (runScript procEnv fileEnv w rows).apiCalls = [] ∧
    (runScript procEnv fileEnv w rows).trace = [DbOp.connect] ∧
    DbOp.closeConn ∉ (runScript procEnv fileEnv w rows).trace ∧
    DbOp.closeCur ∉ (runScript procEnv fileEnv w rows).trace := by
  simp [runScript, hkey, process_notes, hconn]

/-- Witness for C10 at a concrete world whose connection attempt raises. -/
theorem C10_connect_failure_witness :
    pyFalsy (lookupEnv "OPENAI_API_KEY" (load_dotenv [] keyEnv)) = false ∧
    badConnWorld.connect = Except.error "connection refused".toList ∧
    (runScript keyEnv [] badConnWorld sampleRows).trace = [DbOp.connect] :=
  ⟨by decide, rfl,
    (C10_connect_failure keyEnv [] badConnWorld sampleRows
      "connection refused".toList (by decide) rfl).2.2.2.2.2.1⟩

/-- Frame property of the UPDATE: rows with other ids are untouched, the
addressed row gets exactly `embedding` and `indexed_at` set. -/
lemma sqlUpdate_frame (noteId : Int) (e : Emb) (now : Int) (rows : List Row) :
    List.Forall₂ (fun r r' =>
        (r.id ≠ noteId → r' = r) ∧
        (r.id = noteId → r' = { r with embedding := some e, indexed_at := some now }))
      rows (sqlUpdate noteId e now rows) := by
  induction rows with
  | nil => exact List.Forall₂.nil
  | cons r rest ih =>
    have hstep : sqlUpdate noteId e now (r :: rest)
        = (if r.id = noteId then { r with embedding := some e, indexed_at := some now }
            else r) :: sqlUpdate noteId e now rest := rfl
    rw [hstep]
    refine List.Forall₂.cons ?_ ih
    by_cases hr : r.id = noteId
    · exact ⟨fun hne => absurd hr hne, fun _ => by rw [if_pos hr]⟩
    · exact ⟨fun _ => by rw [if_neg hr], fun heq => absurd heq hr⟩

/-- Claim C4: a successfully processed record is persisted by a single UPDATE
addressed at its id followed by a single commit; the UPDATE sets `embedding`
and `indexed_at` together, modifies no other column of the row and no other
row; and every committed state of any run differs from the initial state only
by rows whose `embedding` and `indexed_at` were set together. -/
theorem C4_atomic_update (w : World) (rows : List Row) (n : Note) (emb : Emb)
    (hapi : get_embedding w.api (requestText n.2.1 n.2.2) = Except.ok emb)
    (hupd : w.updateExec n.1 = Except.ok ()) :
    (processOne w rows n).trace = [DbOp.update n.1, DbOp.commit] ∧
    (processOne w rows n).rows = sqlUpdate n.1 emb w.now rows ∧
    List.Forall₂ (fun r r' =>
        (r.id ≠ n.1 → r' = r) ∧
        (r.id = n.1 → r' = { r with embedding := some emb, indexed_at := some w.now }))
      rows (sqlUpdate n.1 emb w.now rows) ∧
    (∀ notes : List Note, ∀ s ∈ rows :: committedStates w rows notes,
      List.Forall₂ (evolves w.now) rows s) := by
  refine ⟨?_, ?_, sqlUpdate_frame n.1 emb w.now rows, ?_⟩
  · simp [processOne, hapi, hupd]
  · simp [processOne, hapi, hupd]
  · intro notes s hs
    cases List.mem_cons.mp hs with
    | inl h => exact h ▸ forall₂_evolves_self w.now rows
    | inr h => exact committedStates_evolves w notes rows s h

/-- Witness for C4 at a concrete successful record. -/
theorem C4_atomic_update_witness :
    get_embedding okWorld.api (requestText note1.2.1 note1.2.2)
      = Except.ok [1, 2, 3] ∧
    okWorld.updateExec note1.1 = Except.ok () ∧
    (processOne okWorld sampleRows note1).trace
      = [DbOp.update note1.1, DbOp.commit] ∧
    (processOne okWorld sampleRows note1).rows
      = sqlUpdate note1.1 [1, 2, 3] okWorld.now sampleRows :=
  ⟨rfl, rfl, (C4_atomic_update okWorld sampleRows note1 [1, 2, 3] rfl rfl).1,
    (C4_atomic_update okWorld sampleRows note1 [1, 2, 3] rfl rfl).2.1⟩

/-- Counterexample to claim C9 as stated: with an 8000-character title and a
NULL content, the request text is the bare title — the rendered "None" is cut
off by the truncation, so the request does not end in (or contain) "None". -/
theorem C9_counterexample :
    ¬ ("None".toList <:+ requestText (some bigTitle) none) := by
  intro hsuf
  obtain ⟨u, hu⟩ := hsuf
  have hreq : requestText (some bigTitle) none = bigTitle := by
    have hfull : full_text (some bigTitle) none
        = bigTitle ++ (('\n' :: '\n' :: []) ++ "None".toList) := by
      simp [full_text, pyStr]
    unfold requestText
    rw [hfull]
    exact List.take_left' (List.length_replicate 8000 'a')
  rw [hreq] at hu
  have he : 'e' ∈ u ++ "None".toList := List.mem_append_right u (by decide)
  rw [hu] at he
  have hea : 'e' = 'a' := List.eq_of_mem_replicate he
  exact absurd hea (by decide)

/-- Claim C9 amended: a NULL title or content does not make processing fail:
the null renders as the literal four-character string "None" in the built text
`title + blank line + content` (so a null content makes the built text end in
"None", and the request text too whenever the built text is within the
8000-character budget), and the resulting text is submitted to the provider
like any other. -/
theorem C9_null_rendering (t : Option Str) :
    pyStr none = "None".toList ∧
    "None".toList <:+ full_text t none ∧
    ((full_text t none).length ≤ 8000 → "None".toList <:+ requestText t none) ∧
    (∀ (w : World) (rows : List Row) (noteId : Int) (c : Option Str),
      (processOne w rows (noteId, t, c)).apiCalls
        = [apiRequest (requestText t c)]) := by
  refine ⟨rfl, ⟨pyStr t ++ ('\n' :: '\n' :: []), by simp [full_text, pyStr]⟩, ?_, ?_⟩
  · intro hlen
    unfold requestText
    rw [List.take_of_length_le hlen]
    exact ⟨pyStr t ++ ('\n' :: '\n' :: []), by simp [full_text, pyStr]⟩
  · intro w rows noteId c
    exact processOne_apiCalls w rows (noteId, t, c)

/-- Witness for the amended C9 at a concrete short title. -/
theorem C9_null_rendering_witness :
    (full_text (some "T".toList) none).length ≤ 8000 ∧
    "None".toList <:+ requestText (some "T".toList) none :=
  ⟨by decide, (C9_null_rendering (some "T".toList)).2.2.1 (by decide)⟩

/-- Claim C2: a record is selected if and only if its embedding is null, and
a record whose embedding is non-null at the start of a run is never selected
and is left with all its fields untouched by the whole run. -/
theorem C2_selection_invariant (w : World) (rows : List Row)
    (hnodup : (rows.map Row.id).Nodup) (r : Row) (hr : r ∈ rows) :
    ((r.id, r.title, r.content) ∈ selectCandidates rows ↔ r.embedding = none) ∧
    (r.embedding ≠ none →
      (∀ c ∈ selectCandidates rows, c.1 ≠ r.id) ∧
      findRow r.id (process_notes w rows).rows = some r) := by
  have hiff : (r.id, r.title, r.content) ∈ selectCandidates rows ↔ r.embedding = none := by
    constructor
    · intro h
      obtain ⟨r', hr', hre, heq⟩ := (mem_selectCandidates rows _).mp h
      have hid : r.id = r'.id := congrArg Prod.fst heq
      rw [List.inj_on_of_nodup_map hnodup hr hr' hid]
      exact hre
    · intro h
      exact (mem_selectCandidates rows _).mpr ⟨r, hr, h, rfl⟩
  refine ⟨hiff, fun hemb => ?_⟩
  have hcand : ∀ c ∈ selectCandidates rows, c.1 ≠ r.id := by
    intro c hc hceq
    obtain ⟨r', hr', hre, rfl⟩ := (mem_selectCandidates rows c).mp hc
    have : r' = r := List.inj_on_of_nodup_map hnodup hr' hr hceq
    exact hemb (this ▸ hre)
  refine ⟨hcand, ?_⟩
  unfold process_notes
  cases hconn : w.connect with
  | error e => exact findRow_eq_some_of_nodup rows hnodup r hr
  | ok u =>
    show findRow r.id (processList w rows (selectCandidates rows)).rows = some r
    rw [findRow_processList_untouched w (selectCandidates rows) rows r.id hcand]
    exact findRow_eq_some_of_nodup rows hnodup r hr

/-- Witness for C2 at a concrete already-embedded row. -/
theorem C2_selection_invariant_witness :
    (sampleRows.map Row.id).Nodup ∧ rowB ∈ sampleRows ∧ rowB.embedding ≠ none ∧
    findRow rowB.id (process_notes okWorld sampleRows).rows = some rowB :=
  ⟨by decide, by decide, by decide,
    ((C2_selection_invariant okWorld sampleRows (by decide) rowB (by decide)).2
      (by decide)).2⟩

/-- `process_notes` on a successful connection, unfolded. -/
lemma process_notes_ok (w : World) (rows : List Row)
    (hconn : w.connect = Except.ok ()) :
    process_notes w rows =
      ⟨Except.ok (), (processList w rows (selectCandidates rows)).rows,
        DbOp.connect :: DbOp.select ::
          ((processList w rows (selectCandidates rows)).trace
            ++ [DbOp.closeCur, DbOp.closeConn]),
        LogEntry.found (selectCandidates rows).length ::
          ((processList w rows (selectCandidates rows)).log ++ [LogEntry.finished]),
        (processList w rows (selectCandidates rows)).apiCalls⟩ := by
  unfold process_notes
  rw [hconn]

/-- Claim C3: a record whose embedding or persistence step raises gets its id
and the error logged and its transaction rolled back, its row stays unchanged
and unembedded, and a later candidate of the same run is still attempted and,
on success, committed. -/
theorem C3_failure_isolation (w : World) (rows : List Row)
    (hnodup : (rows.map Row.id).Nodup) (hconn : w.connect = Except.ok ())
    (a b : Note) (pre mid post : List Note) (e : Str)
    (hsel : selectCandidates rows = pre ++ a :: (mid ++ b :: post))
    (ha : stepError w a = some e) (hb : stepError w b = none) :
    LogEntry.errorLine a.1 e ∈ (process_notes w rows).log ∧
    DbOp.rollback ∈ (process_notes w rows).trace ∧
    findRow a.1 (process_notes w rows).rows = findRow a.1 rows ∧
    (∃ r : Row, findRow a.1 (process_notes w rows).rows = some r ∧
      r.embedding = none) ∧
    LogEntry.processed b.1 b.2.1 ∈ (process_notes w rows).log ∧
    (∃ r : Row, findRow b.1 (process_notes w rows).rows = some r ∧
      r.embedding ≠ none) := by
  have hids : ((pre ++ a :: (mid ++ b :: post)).map (fun n : Note => n.1)).Nodup := by
    have h := selectCandidates_ids_nodup rows hnodup
    rwa [hsel] at h
  have hsplitA := nodup_split (fun n : Note => n.1) pre (mid ++ b :: post) a hids
  have hassoc : pre ++ a :: (mid ++ b :: post) = (pre ++ a :: mid) ++ b :: post := by
    rw [List.append_assoc, List.cons_append]
  have hidsB : (((pre ++ a :: mid) ++ b :: post).map (fun n : Note => n.1)).Nodup := by
    rwa [hassoc] at hids
  have hsplitB := nodup_split (fun n : Note => n.1) (pre ++ a :: mid) post b hidsB
  have hpreB : ∀ y ∈ pre, y.1 ≠ b.1 :=
    fun y hy => hsplitB.1 y (List.mem_append_left _ hy)
  have hmidB : ∀ y ∈ mid, y.1 ≠ b.1 :=
    fun y hy => hsplitB.1 y
      (List.mem_append_right _ (List.mem_cons_of_mem a hy))
  have haMem : a ∈ selectCandidates rows := by
    rw [hsel]
    exact List.mem_append_right pre (List.mem_cons_self ..)
  have hbMem : b ∈ selectCandidates rows := by
    rw [hsel]
    exact List.mem_append_right pre
      (List.mem_cons_of_mem a (List.mem_append_right mid (List.mem_cons_self ..)))
  obtain ⟨ra, hraMem, hraEmb, haEq⟩ := (mem_selectCandidates rows a).mp haMem
  obtain ⟨rb, hrbMem, hrbEmb, hbEq⟩ := (mem_selectCandidates rows b).mp hbMem
  have hfa : findRow a.1 rows = some ra := by
    rw [show a.1 = ra.id from congrArg Prod.fst haEq]
    exact findRow_eq_some_of_nodup rows hnodup ra hraMem
  have hfb : findRow b.1 rows = some rb := by
    rw [show b.1 = rb.id from congrArg Prod.fst hbEq]
    exact findRow_eq_some_of_nodup rows hnodup rb hrbMem
  obtain ⟨hafR, hafL, hafT⟩ :=
    processOne_fail w (processList w rows pre).rows a e ha
  obtain ⟨embB, hembB, hokB⟩ :=
    processOne_ok w
      (processList w (processList w rows pre).rows mid).rows b hb
  -- the failing record's row is untouched by the whole run
  have hfae : findRow a.1
      (processList w rows (pre ++ a :: (mid ++ b :: post))).rows
      = findRow a.1 rows := by
    rw [processList_rows_append, processList_rows_cons, hafR,
      findRow_processList_untouched w (mid ++ b :: post)
        (processList w rows pre).rows a.1 hsplitA.2,
      findRow_processList_untouched w pre rows a.1 hsplitA.1]
  -- the later record's row ends up committed with an embedding
  have hfbe : findRow b.1
      (processList w rows (pre ++ a :: (mid ++ b :: post))).rows
      = some { rb with embedding := some embB, indexed_at := some w.now } := by
    rw [processList_rows_append, processList_rows_cons, hafR,
      processList_rows_append, processList_rows_cons,
      findRow_processList_untouched w post _ b.1 hsplitB.2]
    simp only [hokB]
    rw [findRow_sqlUpdate_eq,
      findRow_processList_untouched w mid (processList w rows pre).rows b.1 hmidB,
      findRow_processList_untouched w pre rows b.1 hpreB, hfb]
    rfl
  -- the error line is printed
  have hmemLog : LogEntry.errorLine a.1 e
      ∈ (processList w rows (pre ++ a :: (mid ++ b :: post))).log := by
    rw [processList_log_append, processList_log_cons, hafL]
    simp
  -- the rollback reaches the datastore
  have hmemTr : DbOp.rollback
      ∈ (processList w rows (pre ++ a :: (mid ++ b :: post))).trace := by
    rw [processList_trace_append, processList_trace_cons]
    exact List.mem_append_right _ (List.mem_append_left _ hafT)
  -- the later record's progress line is printed
  have hmemB : LogEntry.processed b.1 b.2.1
      ∈ (processList w rows (pre ++ a :: (mid ++ b :: post))).log := by
    rw [processList_log_append, processList_log_cons, hafR, hafL,
      processList_log_append, processList_log_cons]
    simp only [hokB]
    simp
  rw [process_notes_ok w rows hconn]
  simp only [hsel]
  refine ⟨List.mem_cons_of_mem _ (List.mem_append_left _ hmemLog),
    List.mem_cons_of_mem _ (List.mem_cons_of_mem _ (List.mem_append_left _ hmemTr)),
    hfae, ?_, List.mem_cons_of_mem _ (List.mem_append_left _ hmemB), ?_⟩
  · rw [hfae, hfa]
    exact ⟨ra, rfl, hraEmb⟩
  · rw [hfbe]
    exact ⟨_, rfl, by simp⟩

/-- Witness for C3: in a three-candidate run whose first record's UPDATE
raises, the second record is still processed and committed while the first
stays unembedded. -/
theorem C3_failure_isolation_witness :
    stepError failWorld note1 = some "boom".toList ∧
    stepError failWorld note2 = none ∧
    LogEntry.processed note2.1 note2.2.1 ∈ (process_notes failWorld rows3).log ∧
    (∃ r : Row, findRow note1.1 (process_notes failWorld rows3).rows = some r ∧
      r.embedding = none) ∧
    (∃ r : Row, findRow note2.1 (process_notes failWorld rows3).rows = some r ∧
      r.embedding ≠ none) :=
  ⟨rfl, rfl,
    (C3_failure_isolation failWorld rows3 (by decide) rfl note1 note2 [] [] [note3]
      "boom".toList (by decide) rfl rfl).2.2.2.2.1,
    (C3_failure_isolation failWorld rows3 (by decide) rfl note1 note2 [] [] [note3]
      "boom".toList (by decide) rfl rfl).2.2.2.1,
    (C3_failure_isolation failWorld rows3 (by decide) rfl note1 note2 [] [] [note3]
      "boom".toList (by decide) rfl rfl).2.2.2.2.2⟩

end GenEmb
